import Mathlib

/-!
Shallow embedding of the book pipeline in `src/dags/app.py`
(`fetch_books_from_google_api`, the dataframe normalize block,
`insert_book_data_into_postgres`, and the DAG task chain), together with
theorems settling the specification claims about it.

Conventions:
* Python strings are Lean `String`; the slice `s[:n]` is `strTake n s`
  (first `n` characters).
* Absent JSON fields are `Option.none`; `dict.get(k, default)` is
  `Option.getD`.
* The Postgres `book` table is a `List Row` in insertion order (the
  `id SERIAL` column is the position); the `ON CONFLICT (title) DO UPDATE`
  upsert is `upsert`.
* Exceptions raised to the caller are `Except.error`; per-record caught
  exceptions are injected through a `fails : BookRecord → Bool` oracle
  standing for "this record's upsert raised".
-/

/-- The canonical record shape produced by the fetch step
(`books.append({...})`, app.py lines 61-66). -/
structure BookRecord where
  title : String
  author : String
  price : String
  rating : String
deriving DecidableEq, Repr

/-- Python `s[:n]`: the first `n` characters of `s`. -/
def strTake (n : Nat) (s : String) : String :=
  String.mk (s.data.take n)

/-- `retailPrice` object of an API item (`saleInfo.retailPrice`),
fields optional as in the untyped JSON payload. -/
structure RetailPrice where
  amount : Option String
  currencyCode : Option String
deriving DecidableEq, Repr

/-- `saleInfo` object of an API item; a missing `saleInfo` dict is the
all-`none` value (the code defaults it to `{}`). -/
structure SaleInfo where
  saleability : Option String
  retailPrice : Option RetailPrice
deriving DecidableEq, Repr

/-- `volumeInfo` object of an API item; a missing dict is all-`none`.
`averageRating` is carried in its rendered (f-string) form. -/
structure VolumeInfo where
  title : Option String
  authors : Option (List String)
  averageRating : Option String
  ratingsCount : Option Nat
deriving DecidableEq, Repr

/-- One element of the API response's `items` list. -/
structure Item where
  volumeInfo : VolumeInfo
  saleInfo : SaleInfo
deriving DecidableEq, Repr

/-- Price derivation of app.py lines 44-53: `"N/A"` unless the item is
`FOR_SALE` with a truthy `retailPrice` dict carrying an amount (currency
defaults to `"$"`), or `FREE`. -/
def priceOf (si : SaleInfo) : String :=
  if si.saleability = some "FOR_SALE" then
    match si.retailPrice with
    | some rp =>
      if rp.amount.isSome || rp.currencyCode.isSome then
        match rp.amount with
        | some a => a ++ " " ++ rp.currencyCode.getD "$"
        | none => "N/A"
      else "N/A"
    | none => "N/A"
  else if si.saleability = some "FREE" then "Free"
  else "N/A"

/-- Rating derivation of app.py lines 56-59: `"<rating>/5 (<count> reviews)"`
when an average rating exists (count defaulting to 0), else `"N/A"`. -/
def ratingOf (vi : VolumeInfo) : String :=
  match vi.averageRating with
  | some r => r ++ "/5 (" ++ Nat.repr (vi.ratingsCount.getD 0) ++ " reviews)"
  | none => "N/A"

/-- Parsing of one API item into a `BookRecord` (app.py lines 38-66). -/
def parseItem (it : Item) : BookRecord :=
  { title := it.volumeInfo.title.getD "Unknown Title"
    author := String.intercalate ", " (it.volumeInfo.authors.getD ["Unknown Author"])
    price := priceOf it.saleInfo
    rating := ratingOf it.volumeInfo }

/-- Modelled from the spec: `generate_sample_book_data` is called by
`fetch_books_from_google_api` but its definition is not under `src/`.
Per spec section 4.1 the fallback generator "synthesizes `count` placeholder
records (deterministic or pseudo-random content is acceptable, but must
satisfy the same field-shape contract)"; `title` is the batch's natural key,
so placeholder titles are pairwise distinct. -/
def generate_sample_book_data (count : Nat) : List BookRecord :=
  (List.range count).map (fun i =>
    { title := "Sample Book " ++ String.mk (List.replicate (i + 1) 'I')
      author := "Sample Author"
      price := "N/A"
      rating := "N/A" })

/-- Field truncation of app.py lines 99-102 (`df['title'].str[:200]`, ...). -/
def truncRec (b : BookRecord) : BookRecord :=
  { title := strTake 200 b.title
    author := strTake 200 b.author
    price := strTake 50 b.price
    rating := strTake 50 b.rating }

/-- `df.drop_duplicates(subset='title')` with an accumulator of titles
already seen: keeps the first occurrence of each title. -/
def dedupGo (seen : List String) : List BookRecord → List BookRecord
  | [] => []
  | b :: bs => if b.title ∈ seen then dedupGo seen bs
               else b :: dedupGo (b.title :: seen) bs

/-- Deduplication by title, keeping first occurrences (app.py line 95). -/
def dedupByTitle (bs : List BookRecord) : List BookRecord :=
  dedupGo [] bs

/-- The normalizer (spec section 4.2): the dataframe block of app.py
lines 94-104 — dedup by title, `head(limit)`, then truncate the fields;
an empty frame is passed through. -/
def normalizeBooks (bs : List BookRecord) (limit : Nat) : List BookRecord :=
  if bs.isEmpty then []
  else ((dedupByTitle bs).take limit).map truncRec

/-- `maxResults` query parameter of the single API request
(app.py line 27): `min(num_books, 40)`. -/
def requestMaxResults (numBooks : Nat) : Nat :=
  min numBooks 40

/-- Body of an HTTP response: `response.json()` either raises
(`malformed`) or yields an object whose `items` list defaults to `[]`. -/
inductive Body where
  | malformed
  | items (is : List Item)
deriving DecidableEq, Repr

/-- Outcome of `requests.get`: a raised `RequestException` or a response
with a status code and body. Any other exception raised while parsing a
well-formed body is not represented: parsing below is total. -/
inductive ApiOutcome where
  | networkError
  | response (code : Nat) (body : Body)
deriving DecidableEq, Repr

/-- `fetch_books_from_google_api` (app.py lines 16-108) as a function of
the API outcome: the parsed list on HTTP 200, the fallback generator on a
network error, non-200 status, or parse exception; the final safety net
replaces an empty list by fallback data; the result is normalized with
`limit = num_books`. -/
def fetch_books_from_google_api (o : ApiOutcome) (numBooks : Nat) : List BookRecord :=
  let books : List BookRecord :=
    match o with
    | .networkError => generate_sample_book_data numBooks
    | .response code body =>
      if code = 200 then
        match body with
        | .malformed => generate_sample_book_data numBooks
        | .items is => (is.take numBooks).map parseItem
      else generate_sample_book_data numBooks
  let books' := if books.isEmpty then generate_sample_book_data numBooks else books
  normalizeBooks books' numBooks

/-- One row of the Postgres `book` table (columns `title, authors, price,
rating`; `id SERIAL` is the list position). -/
structure Row where
  title : String
  authors : String
  price : String
  rating : String
deriving DecidableEq, Repr

/-- The row a record inserts. -/
def toRow (b : BookRecord) : Row :=
  { title := b.title, authors := b.author, price := b.price, rating := b.rating }

/-- Whether the table has a row with the given title. -/
def hasTitle (t : List Row) (s : String) : Bool :=
  t.any (fun r => r.title == s)

/-- `ON CONFLICT (title) DO UPDATE SET authors/price/rating = EXCLUDED...`
applied to one row. -/
def updRow (b : BookRecord) (r : Row) : Row :=
  if r.title = b.title then toRow b else r

/-- The upsert of app.py lines 127-134: insert a fresh row, or on a title
conflict overwrite `authors`, `price`, `rating` of the conflicting row. -/
def upsert (t : List Row) (b : BookRecord) : List Row :=
  if hasTitle t b.title then t.map (updRow b) else t ++ [toRow b]

/-- Effect on the table of upserting each record in order (the body of the
`for book in book_data` loop, successes only). -/
def persistT (rs : List BookRecord) (t : List Row) : List Row :=
  match rs with
  | [] => t
  | b :: bs => persistT bs (upsert t b)

/-- The `PersistSummary` of spec section 4.3: `inserted_count` of the code,
plus the count of per-record failures (each logged and skipped). -/
structure PersistSummary where
  inserted_or_updated : Nat
  failed : Nat
deriving DecidableEq, Repr

/-- The `for book in book_data` loop of app.py lines 138-148: a failing
record's exception is caught and the loop continues; a succeeding record
is upserted and counted. Returns (table, inserted_count, failed). -/
def persistLoop (fails : BookRecord → Bool) : List BookRecord → List Row → List Row × Nat × Nat
  | [], t => (t, 0, 0)
  | b :: bs, t =>
    if fails b then
      let r := persistLoop fails bs t
      (r.1, r.2.1, r.2.2 + 1)
    else
      let r := persistLoop fails bs (upsert t b)
      (r.1, r.2.1 + 1, r.2.2)

/-- `insert_book_data_into_postgres` (app.py lines 112-160) as a state
transformer on the table: empty (or missing) XCom data raises before any
write, with the outer handler's wrapped message; otherwise every record is
tried and a summary is produced. -/
def insert_book_data_into_postgres (fails : BookRecord → Bool) (t : List Row)
    (bookData : List BookRecord) : List Row × Except String PersistSummary :=
  if bookData.isEmpty then
    (t, Except.error "Error in database operation: No book data found in XCom")
  else
    let r := persistLoop fails bookData t
    (r.1, Except.ok ⟨r.2.1, r.2.2⟩)

/-- `create_table_task` (app.py lines 185-205): `DROP TABLE IF EXISTS book`
followed by `CREATE TABLE book (...)` leaves an empty table whatever was
there before. -/
def create_table_task (_t : List Row) : List Row :=
  []

/-- One DAG run (app.py line 221):
`create_table_task >> fetch_book_data_task >> insert_book_data_task`. -/
def dagRun (fails : BookRecord → Bool) (o : ApiOutcome) (numBooks : Nat)
    (t : List Row) : List Row :=
  (insert_book_data_into_postgres fails (create_table_task t)
    (fetch_books_from_google_api o numBooks)).1

/-- The API outcomes on which `fetch_books_from_google_api` falls back to
the sample generator: a network exception, a parse exception, a non-200
status, or an HTTP 200 response with an empty item list. -/
def isFetchFailure : ApiOutcome → Bool
  | .networkError => true
  | .response _ .malformed => true
  | .response code (.items is) => !(code == 200) || is.isEmpty

/-- Titles of the table's rows, in order. -/
def titlesOf (t : List Row) : List String :=
  t.map (fun r => r.title)

/-- Apply every record's conflict-update in order to one row: only records
sharing the row's title change it, and the last one wins. -/
def applyUpds (rs : List BookRecord) (r : Row) : Row :=
  rs.foldl (fun r b => updRow b r) r

/-- The last record in the list carrying the given title, if any. -/
def lastMatch (rs : List BookRecord) (s : String) : Option BookRecord :=
  rs.reverse.find? (fun b => b.title == s)

/-! ## Helper lemmas -/

theorem strTake_length_le (n : Nat) (s : String) : (strTake n s).length ≤ n := by
  simp only [strTake, String.length_mk, List.length_take]
  exact Nat.min_le_left _ _

theorem strTake_of_length_le {n : Nat} {s : String} (h : s.length ≤ n) :
    strTake n s = s := by
  cases s with
  | mk l =>
    exact congrArg String.mk (List.take_of_length_le (by simpa using h))

theorem strTake_idem (n : Nat) (s : String) : strTake n (strTake n s) = strTake n s := by
  simp [strTake, List.take_take]

theorem truncRec_idem (b : BookRecord) : truncRec (truncRec b) = truncRec b := by
  simp [truncRec, strTake_idem]

theorem truncRec_bounds (b : BookRecord) :
    (truncRec b).title.length ≤ 200 ∧ (truncRec b).author.length ≤ 200 ∧
    (truncRec b).price.length ≤ 50 ∧ (truncRec b).rating.length ≤ 50 :=
  ⟨strTake_length_le _ _, strTake_length_le _ _, strTake_length_le _ _,
   strTake_length_le _ _⟩

theorem normalizeBooks_length_le (bs : List BookRecord) (limit : Nat) :
    (normalizeBooks bs limit).length ≤ limit := by
  unfold normalizeBooks
  split
  · simp
  · simp only [List.length_map, List.length_take]
    exact Nat.min_le_left _ _

theorem mem_normalizeBooks_bounds (bs : List BookRecord) (limit : Nat) :
    ∀ b ∈ normalizeBooks bs limit,
      b.title.length ≤ 200 ∧ b.author.length ≤ 200 ∧
      b.price.length ≤ 50 ∧ b.rating.length ≤ 50 := by
  intro b hb
  unfold normalizeBooks at hb
  split at hb
  · simp at hb
  · obtain ⟨c, _, rfl⟩ := List.mem_map.mp hb
    exact truncRec_bounds c

theorem fetch_is_normalized (o : ApiOutcome) (n : Nat) :
    ∃ bs, fetch_books_from_google_api o n = normalizeBooks bs n :=
  ⟨_, rfl⟩

/-! ## Claim theorems: C8, C4, C9 -/

/-- C8 counterexample: the claim says that when the item is for sale but no
currency code exists the price is `"N/A"`; the code instead defaults the
currency to `"$"` and formats `"<amount> $"`. -/
theorem priceOf_currency_default_breaks_claim :
    priceOf ⟨some "FOR_SALE", some ⟨some "5.99", none⟩⟩ = "5.99 $" ∧
    ("5.99 $" : String) ≠ "N/A" :=
  ⟨rfl, by decide⟩

/-- C8 (amended): if the sale status is `FOR_SALE` and a retail price amount
exists, the price is `"<amount> <currency>"` with the currency defaulting to
`"$"` when absent; if the status is `FREE`, it is `"Free"`; if the status is
neither, or it is `FOR_SALE` without an amount, it is `"N/A"`. -/
theorem priceOf_cases (si : SaleInfo) :
    (∀ rp a, si.saleability = some "FOR_SALE" → si.retailPrice = some rp →
        rp.amount = some a →
        priceOf si = a ++ " " ++ rp.currencyCode.getD "$") ∧
    (si.saleability = some "FREE" → priceOf si = "Free") ∧
    (si.saleability ≠ some "FOR_SALE" → si.saleability ≠ some "FREE" →
        priceOf si = "N/A") ∧
    (si.saleability = some "FOR_SALE" →
        (si.retailPrice = none ∨ ∃ rp, si.retailPrice = some rp ∧ rp.amount = none) →
        priceOf si = "N/A") := by
  obtain ⟨sb, rp⟩ := si
  refine ⟨?_, ?_, ?_, ?_⟩
  · rintro rp' a h1 h2 h3
    subst h1; subst h2
    simp [priceOf, h3]
  · intro h; subst h
    simp [priceOf]
  · intro h1 h2
    simp only at h1 h2
    simp [priceOf, h1, h2]
  · rintro h1 (h2 | ⟨rp', h2, h3⟩) <;> subst h1
    · subst h2; simp [priceOf]
    · subst h2; simp [priceOf, h3]

/-- Witness for `priceOf_cases` at concrete sale infos. -/
theorem priceOf_cases_witness :
    priceOf ⟨some "FOR_SALE", some ⟨some "12.5", some "EUR"⟩⟩ = "12.5" ++ " " ++ "EUR" ∧
    priceOf ⟨some "FREE", none⟩ = "Free" ∧
    priceOf ⟨none, none⟩ = "N/A" :=
  ⟨(priceOf_cases ⟨some "FOR_SALE", some ⟨some "12.5", some "EUR"⟩⟩).1
      ⟨some "12.5", some "EUR"⟩ "12.5" rfl rfl rfl,
   (priceOf_cases ⟨some "FREE", none⟩).2.1 rfl,
   (priceOf_cases ⟨none, none⟩).2.2.1 (by decide) (by decide)⟩

/-- C4: calling the persist step on an empty record sequence raises the
empty-input error (the wrapped "No book data found in XCom" exception)
before any write: the table is returned unchanged. -/
theorem insert_empty_input_error (fails : BookRecord → Bool) (t : List Row) :
    insert_book_data_into_postgres fails t [] =
      (t, Except.error "Error in database operation: No book data found in XCom") :=
  rfl

/-- C9: for every well-formed HTTP 200 response and every count, the fetch
step returns at most `count` records, each field within its length bound
(title/author ≤ 200 chars, price/rating ≤ 50 chars), and the single request
asks the API for `min(count, 40) ≤ 40` results. -/
theorem fetch_valid_response_bounded (is : List Item) (count : Nat) :
    (fetch_books_from_google_api (.response 200 (.items is)) count).length ≤ count ∧
    (∀ b ∈ fetch_books_from_google_api (.response 200 (.items is)) count,
        b.title.length ≤ 200 ∧ b.author.length ≤ 200 ∧
        b.price.length ≤ 50 ∧ b.rating.length ≤ 50) ∧
    requestMaxResults count = min count 40 ∧ requestMaxResults count ≤ 40 := by
  obtain ⟨bs, h⟩ := fetch_is_normalized (.response 200 (.items is)) count
  rw [h]
  exact ⟨normalizeBooks_length_le bs count, mem_normalizeBooks_bounds bs count,
    rfl, Nat.min_le_right _ _⟩

/-! ## Deduplication lemmas -/

theorem mem_dedupGo {seen : List String} {bs : List BookRecord} {b : BookRecord}
    (h : b ∈ dedupGo seen bs) : b ∈ bs := by
  induction bs generalizing seen with
  | nil => simp [dedupGo] at h
  | cons c cs ih =>
    simp only [dedupGo] at h
    split at h
    · exact List.mem_cons_of_mem _ (ih h)
    · rcases List.mem_cons.mp h with rfl | h'
      · exact List.mem_cons_self _ _
      · exact List.mem_cons_of_mem _ (ih h')

theorem dedupGo_not_seen {seen : List String} {bs : List BookRecord} {b : BookRecord}
    (h : b ∈ dedupGo seen bs) : b.title ∉ seen := by
  induction bs generalizing seen with
  | nil => simp [dedupGo] at h
  | cons c cs ih =>
    simp only [dedupGo] at h
    split at h
    · exact ih h
    · rcases List.mem_cons.mp h with rfl | h'
      · assumption
      · intro hmem
        exact ih h' (List.mem_cons_of_mem _ hmem)

theorem dedupGo_titles_nodup (seen : List String) (bs : List BookRecord) :
    ((dedupGo seen bs).map (fun b => b.title)).Nodup := by
  induction bs generalizing seen with
  | nil => simp [dedupGo]
  | cons c cs ih =>
    simp only [dedupGo]
    split
    · exact ih seen
    · simp only [List.map_cons, List.nodup_cons]
      refine ⟨?_, ih _⟩
      intro hmem
      obtain ⟨d, hd, hdt⟩ := List.mem_map.mp hmem
      exact dedupGo_not_seen hd (hdt ▸ List.mem_cons_self _ _)

theorem dedupGo_eq_self {seen : List String} {bs : List BookRecord}
    (h1 : (bs.map (fun b => b.title)).Nodup) (h2 : ∀ b ∈ bs, b.title ∉ seen) :
    dedupGo seen bs = bs := by
  induction bs generalizing seen with
  | nil => rfl
  | cons c cs ih =>
    simp only [List.map_cons] at h1
    have hn := List.nodup_cons.mp h1
    simp only [dedupGo]
    rw [if_neg (h2 c (List.mem_cons_self _ _))]
    congr 1
    refine ih hn.2 ?_
    intro b hb hmem
    rcases List.mem_cons.mp hmem with he | hseen
    · exact hn.1 (he ▸ List.mem_map_of_mem _ hb)
    · exact h2 b (List.mem_cons_of_mem _ hb) hseen

theorem dedupGo_seen_equiv {seen seen' : List String} (bs : List BookRecord)
    (h : ∀ x, x ∈ seen ↔ x ∈ seen') : dedupGo seen bs = dedupGo seen' bs := by
  induction bs generalizing seen seen' with
  | nil => rfl
  | cons c cs ih =>
    simp only [dedupGo]
    by_cases hc : c.title ∈ seen
    · rw [if_pos hc, if_pos ((h _).mp hc)]
      exact ih h
    · rw [if_neg hc, if_neg (fun hx => hc ((h _).mpr hx))]
      congr 1
      refine ih ?_
      intro x
      simp only [List.mem_cons]
      exact or_congr Iff.rfl (h x)

theorem dedupGo_nil_of_all_seen {seen : List String} {bs : List BookRecord}
    (h : ∀ b ∈ bs, b.title ∈ seen) : dedupGo seen bs = [] := by
  induction bs with
  | nil => rfl
  | cons c cs ih =>
    simp only [dedupGo]
    rw [if_pos (h c (List.mem_cons_self _ _))]
    exact ih (fun b hb => h b (List.mem_cons_of_mem _ hb))

theorem dedupGo_titles_complete {seen : List String} {bs : List BookRecord} :
    ∀ b ∈ bs, b.title ∈ seen ∨ b.title ∈ (dedupGo seen bs).map (fun x => x.title) := by
  induction bs generalizing seen with
  | nil => simp
  | cons c cs ih =>
    intro b hb
    simp only [dedupGo]
    rcases List.mem_cons.mp hb with rfl | hb'
    · by_cases hc : b.title ∈ seen
      · exact Or.inl hc
      · right
        rw [if_neg hc]
        simp
    · by_cases hc : c.title ∈ seen
      · rw [if_pos hc]
        exact ih b hb'
      · rw [if_neg hc]
        rcases @ih (c.title :: seen) b hb' with hmem | hmem
        · rcases List.mem_cons.mp hmem with he | hs
          · right
            simp [he]
          · exact Or.inl hs
        · right
          simp only [List.map_cons, List.mem_cons]
          exact Or.inr hmem

theorem normalizeBooks_of_nonempty {bs : List BookRecord} (limit : Nat)
    (h : bs.isEmpty = false) :
    normalizeBooks bs limit = ((dedupByTitle bs).take limit).map truncRec := by
  unfold normalizeBooks
  rw [if_neg (by simp [h])]

/-! ## Claim theorems: C5, C6 -/

set_option maxRecDepth 40000 in
/-- C5 counterexample: truncation happens after deduplication, so two input
titles of 201 and 202 copies of `'a'` are distinct at dedup time but both
truncate to the same 200-character title — the normalized batch contains two
records with the same title. -/
theorem normalize_title_collision :
    ¬ (((normalizeBooks
          [⟨String.mk (List.replicate 201 'a'), "u", "v", "w"⟩,
           ⟨String.mk (List.replicate 202 'a'), "x", "y", "z"⟩] 10).map
        (fun b => b.title)).Nodup) := by
  decide

theorem normalize_titles_nodup_aux (bs : List BookRecord) (limit : Nat)
    (h : ∀ b ∈ bs, b.title.length ≤ 200) :
    ((normalizeBooks bs limit).map (fun b => b.title)).Nodup := by
  by_cases hbs : bs.isEmpty
  · unfold normalizeBooks
    rw [if_pos hbs]
    simp
  · rw [normalizeBooks_of_nonempty limit (by simpa using hbs)]
    have heq : (((dedupByTitle bs).take limit).map truncRec).map (fun b => b.title) =
        ((dedupByTitle bs).take limit).map (fun b => b.title) := by
      rw [List.map_map]
      refine List.map_congr_left ?_
      intro b hb
      have hmem : b ∈ bs := mem_dedupGo (List.take_subset _ _ hb)
      exact strTake_of_length_le (h b hmem)
    rw [heq]
    exact List.Nodup.sublist ((List.take_sublist _ _).map _)
      (dedupGo_titles_nodup [] bs)

/-- C5 (amended): titles are unique within every normalized batch whenever
every input title is at most 200 characters long (deduplication keys on the
pre-truncation title, so only over-long titles can collide after
truncation). -/
theorem normalize_titles_nodup (bs : List BookRecord) (limit : Nat)
    (h : ∀ b ∈ bs, b.title.length ≤ 200) :
    ((normalizeBooks bs limit).map (fun b => b.title)).Nodup :=
  normalize_titles_nodup_aux bs limit h

/-- Witness for `normalize_titles_nodup` on a concrete two-record batch. -/
theorem normalize_titles_nodup_witness :
    ((normalizeBooks [⟨"A", "a", "p", "r"⟩, ⟨"B", "b", "q", "s"⟩] 10).map
      (fun b => b.title)).Nodup :=
  normalize_titles_nodup [⟨"A", "a", "p", "r"⟩, ⟨"B", "b", "q", "s"⟩] 10 (by decide)

set_option maxRecDepth 40000 in
/-- C6 counterexample: on two records whose titles (201 and 202 copies of
`'a'`) collide only after truncation, one application of the normalizer
keeps both records, the second application removes one of them — the
normalizer is not a fixed point on its own output. -/
theorem normalize_not_idempotent :
    normalizeBooks (normalizeBooks
        [⟨String.mk (List.replicate 201 'a'), "u", "v", "w"⟩,
         ⟨String.mk (List.replicate 202 'a'), "x", "y", "z"⟩] 10) 10 ≠
      normalizeBooks
        [⟨String.mk (List.replicate 201 'a'), "u", "v", "w"⟩,
         ⟨String.mk (List.replicate 202 'a'), "x", "y", "z"⟩] 10 := by
  decide

/-- C6 (amended): the normalizer is idempotent on every input whose titles
are at most 200 characters long: applying it to its own output returns the
output unchanged. -/
theorem normalizeBooks_idem (bs : List BookRecord) (limit : Nat)
    (h : ∀ b ∈ bs, b.title.length ≤ 200) :
    normalizeBooks (normalizeBooks bs limit) limit = normalizeBooks bs limit := by
  by_cases hbs : bs.isEmpty
  · have h0 : normalizeBooks bs limit = [] := by
      unfold normalizeBooks
      rw [if_pos hbs]
    rw [h0]
    rfl
  by_cases hoe : (normalizeBooks bs limit).isEmpty
  · have h0 : normalizeBooks bs limit = [] := by simpa using hoe
    rw [h0]
    rfl
  · have hout : normalizeBooks bs limit = ((dedupByTitle bs).take limit).map truncRec :=
      normalizeBooks_of_nonempty limit (by simpa using hbs)
    rw [normalizeBooks_of_nonempty limit (by simpa using hoe)]
    have h1 : dedupByTitle (normalizeBooks bs limit) = normalizeBooks bs limit :=
      dedupGo_eq_self (normalize_titles_nodup_aux bs limit h) (by simp)
    have h2 : (normalizeBooks bs limit).take limit = normalizeBooks bs limit :=
      List.take_of_length_le (normalizeBooks_length_le bs limit)
    have h3 : (normalizeBooks bs limit).map truncRec = normalizeBooks bs limit := by
      rw [hout, List.map_map]
      exact List.map_congr_left (fun b _ => truncRec_idem b)
    rw [show dedupByTitle (normalizeBooks bs limit) = normalizeBooks bs limit from h1,
      h2, h3]

/-- Witness for `normalizeBooks_idem` on a concrete one-record batch. -/
theorem normalizeBooks_idem_witness :
    normalizeBooks (normalizeBooks [⟨"A", "a", "p", "r"⟩] 5) 5 =
      normalizeBooks [⟨"A", "a", "p", "r"⟩] 5 :=
  normalizeBooks_idem [⟨"A", "a", "p", "r"⟩] 5 (by decide)

/-! ## Fallback generator lemmas -/

theorem sample_length (n : Nat) : (generate_sample_book_data n).length = n := by
  simp [generate_sample_book_data]

theorem sample_titles_nodup (n : Nat) :
    ((generate_sample_book_data n).map (fun b => b.title)).Nodup := by
  unfold generate_sample_book_data
  rw [List.map_map]
  refine List.Nodup.map ?_ (List.nodup_range n)
  intro i j hij
  have hlen := congrArg String.length hij
  simp only [Function.comp, String.length_append, String.length_mk,
    List.length_replicate] at hlen
  omega

theorem dedup_sample (n : Nat) :
    dedupByTitle (generate_sample_book_data n) = generate_sample_book_data n :=
  dedupGo_eq_self (sample_titles_nodup n) (by simp)

theorem normalize_sample_length (n : Nat) :
    (normalizeBooks (generate_sample_book_data n) n).length = n := by
  by_cases hn : (generate_sample_book_data n).isEmpty
  · have h0 : n = 0 := by
      have := sample_length n
      rw [List.isEmpty_iff.mp hn] at this
      simpa using this.symm
    subst h0
    rfl
  · rw [normalizeBooks_of_nonempty n (by simpa using hn), dedupByTitle]
    rw [show dedupGo [] (generate_sample_book_data n) = generate_sample_book_data n
      from dedup_sample n]
    rw [show (generate_sample_book_data n).take n = generate_sample_book_data n
      from List.take_of_length_le (by rw [sample_length])]
    simp [sample_length]

theorem normalizeBooks_ne_nil {bs : List BookRecord} {limit : Nat}
    (hbs : bs ≠ []) (hl : 1 ≤ limit) : normalizeBooks bs limit ≠ [] := by
  rw [normalizeBooks_of_nonempty limit (List.isEmpty_eq_false.mpr hbs)]
  intro heq
  rw [List.map_eq_nil_iff, List.take_eq_nil_iff] at heq
  rcases heq with h0 | hded
  · omega
  · cases bs with
    | nil => exact hbs rfl
    | cons b bs' =>
      rw [dedupByTitle] at hded
      simp [dedupGo] at hded

theorem fetch_eq_fallback_of_failure {o : ApiOutcome} {count : Nat}
    (h : isFetchFailure o = true) :
    fetch_books_from_google_api o count =
      normalizeBooks (generate_sample_book_data count) count := by
  cases o with
  | networkError =>
    simp [fetch_books_from_google_api]
  | response code body =>
    cases body with
    | malformed =>
      by_cases hc : code = 200 <;>
        simp [fetch_books_from_google_api, hc]
    | items is =>
      simp only [isFetchFailure] at h
      by_cases hc : code = 200
      · have his : is = [] := by
          rw [hc] at h
          simpa using h
        subst his
        simp [fetch_books_from_google_api, hc]
      · simp [fetch_books_from_google_api, hc]

theorem fetch_books_ne_nil (o : ApiOutcome) {count : Nat}
    (h : generate_sample_book_data count ≠ []) :
    fetch_books_from_google_api o count ≠ [] := by
  have hc : 1 ≤ count := by
    rcases Nat.eq_zero_or_pos count with rfl | hp
    · exact absurd rfl h
    · exact hp
  show normalizeBooks _ count ≠ []
  refine normalizeBooks_ne_nil ?_ hc
  split
  · exact h
  · next hne => exact fun heq => hne (by rw [heq]; rfl)

theorem insert_ok_of_ne {fails : BookRecord → Bool} {t : List Row}
    {bs : List BookRecord} (h : bs ≠ []) :
    ∃ s, (insert_book_data_into_postgres fails t bs).2 = Except.ok s := by
  unfold insert_book_data_into_postgres
  rw [if_neg (by simpa using List.isEmpty_eq_false.mpr h)]
  exact ⟨_, rfl⟩

/-! ## Claim theorems: C1, C10 -/

/-- C1: on every failing API outcome (network exception, parse exception,
non-200 status, or an empty item list) and for every count, the fetch step
never raises — it is a total function — and returns exactly `count`
well-formed records produced by the fallback generator. -/
theorem fetch_failure_returns_fallback (o : ApiOutcome) (count : Nat)
    (h : isFetchFailure o = true) :
    fetch_books_from_google_api o count =
      normalizeBooks (generate_sample_book_data count) count ∧
    (fetch_books_from_google_api o count).length = count ∧
    (∀ b ∈ fetch_books_from_google_api o count,
        b.title.length ≤ 200 ∧ b.author.length ≤ 200 ∧
        b.price.length ≤ 50 ∧ b.rating.length ≤ 50) := by
  refine ⟨fetch_eq_fallback_of_failure h, ?_, ?_⟩
  · rw [fetch_eq_fallback_of_failure h]
    exact normalize_sample_length count
  · rw [fetch_eq_fallback_of_failure h]
    exact mem_normalizeBooks_bounds _ _

/-- Witness for `fetch_failure_returns_fallback`: a network error with
`count = 3` yields exactly 3 records. -/
theorem fetch_failure_returns_fallback_witness :
    isFetchFailure .networkError = true ∧
    (fetch_books_from_google_api .networkError 3).length = 3 :=
  ⟨rfl, (fetch_failure_returns_fallback .networkError 3 rfl).2.1⟩

/-- C10: whenever the fallback generator returns at least one record, the
sequence the fetch step hands to the persist step is non-empty for every
API outcome, so the persist step's empty-input error branch is unreachable
(it returns `ok`); and on an HTTP 200 response with an empty item list the
final safety net re-invokes the fallback generator. -/
theorem fetch_handoff_nonempty (o : ApiOutcome) (count : Nat)
    (fails : BookRecord → Bool) (t : List Row)
    (h : generate_sample_book_data count ≠ []) :
    fetch_books_from_google_api o count ≠ [] ∧
    (∃ s, (insert_book_data_into_postgres fails t
        (fetch_books_from_google_api o count)).2 = Except.ok s) ∧
    fetch_books_from_google_api (.response 200 (.items [])) count =
      normalizeBooks (generate_sample_book_data count) count :=
  ⟨fetch_books_ne_nil o h,
   insert_ok_of_ne (fetch_books_ne_nil o h),
   fetch_eq_fallback_of_failure rfl⟩

/-- Witness for `fetch_handoff_nonempty` at `count = 1`. -/
theorem fetch_handoff_nonempty_witness :
    generate_sample_book_data 1 ≠ [] ∧
    fetch_books_from_google_api .networkError 1 ≠ [] := by
  refine ⟨by decide, ?_⟩
  exact (fetch_handoff_nonempty .networkError 1 (fun _ => false) [] (by decide)).1

/-! ## Persistence lemmas -/

theorem updRow_title (b : BookRecord) (r : Row) : (updRow b r).title = r.title := by
  unfold updRow
  split
  · next h => simp [toRow, h]
  · rfl

theorem hasTitle_map_updRow (t : List Row) (b : BookRecord) (s : String) :
    hasTitle (t.map (updRow b)) s = hasTitle t s := by
  unfold hasTitle
  rw [List.any_map]
  congr 1
  funext r
  simp [Function.comp, updRow_title]

theorem hasTitle_upsert_self (t : List Row) (b : BookRecord) :
    hasTitle (upsert t b) b.title = true := by
  unfold upsert
  split
  · next h => rwa [hasTitle_map_updRow]
  · simp [hasTitle, toRow]

theorem hasTitle_upsert_mono {t : List Row} {b : BookRecord} {s : String}
    (h : hasTitle t s = true) : hasTitle (upsert t b) s = true := by
  unfold upsert
  split
  · rwa [hasTitle_map_updRow]
  · unfold hasTitle at h ⊢
    simp [h]

theorem persistLoop_table_mono {fails : BookRecord → Bool} {bs : List BookRecord} :
    ∀ {t : List Row} {s : String}, hasTitle t s = true →
      hasTitle (persistLoop fails bs t).1 s = true := by
  induction bs with
  | nil => intro t s h; simpa [persistLoop] using h
  | cons b bs ih =>
    intro t s h
    by_cases hf : fails b
    · simp only [persistLoop, hf, if_true]
      exact ih h
    · simp only [persistLoop, hf, if_false, Bool.false_eq_true]
      exact ih (hasTitle_upsert_mono h)

theorem countP_not_add (p : BookRecord → Bool) (l : List BookRecord) :
    l.countP (fun a => !p a) + l.countP p = l.length := by
  induction l with
  | nil => simp
  | cons b bs ih =>
    by_cases hb : p b <;> simp [List.countP_cons, hb, Nat.add_assoc, Nat.add_comm, ih] <;> omega

theorem persistLoop_counts (fails : BookRecord → Bool) (bs : List BookRecord)
    (t : List Row) :
    (persistLoop fails bs t).2.1 = bs.countP (fun b => !fails b) ∧
    (persistLoop fails bs t).2.2 = bs.countP (fun b => fails b) := by
  induction bs generalizing t with
  | nil => simp [persistLoop]
  | cons b bs ih =>
    by_cases hf : fails b
    · simp only [persistLoop, hf, if_true, List.countP_cons]
      simp [hf, (ih t).1, (ih t).2]
    · simp only [persistLoop, hf, if_false, Bool.false_eq_true, List.countP_cons]
      simp [hf, (ih (upsert t b)).1, (ih (upsert t b)).2]

theorem persistLoop_success_present {fails : BookRecord → Bool} {bs : List BookRecord} :
    ∀ {t : List Row} (b : BookRecord), b ∈ bs → fails b = false →
      hasTitle (persistLoop fails bs t).1 b.title = true := by
  induction bs with
  | nil => simp
  | cons c cs ih =>
    intro t b hb hf
    rcases List.mem_cons.mp hb with rfl | hb'
    · simp only [persistLoop, hf, if_false, Bool.false_eq_true]
      exact persistLoop_table_mono (hasTitle_upsert_self t b)
    · by_cases hc : fails c
      · simp only [persistLoop, hc, if_true]
        exact ih b hb' hf
      · simp only [persistLoop, hc, if_false, Bool.false_eq_true]
        exact ih b hb' hf

/-! ## Claim theorems: C3, C2 -/

/-- C3: on a non-empty batch in which exactly one record's upsert raises,
the persist step completes the remaining records — each successful record's
title is present in the final table — and returns a summary reporting
`N - 1` inserted-or-updated records and exactly 1 failure. -/
theorem persist_partial_failure (fails : BookRecord → Bool) (t : List Row)
    (bs : List BookRecord) (h1 : bs ≠ [])
    (h2 : bs.countP (fun b => fails b) = 1) :
    ∃ t', insert_book_data_into_postgres fails t bs =
        (t', Except.ok ⟨bs.length - 1, 1⟩) ∧
      ∀ b ∈ bs, fails b = false → hasTitle t' b.title = true := by
  refine ⟨(persistLoop fails bs t).1, ?_, ?_⟩
  · unfold insert_book_data_into_postgres
    rw [if_neg (by simpa using List.isEmpty_eq_false.mpr h1)]
    have hcounts := persistLoop_counts fails bs t
    have hlen : bs.countP (fun b => !fails b) = bs.length - 1 := by
      have := countP_not_add (fun b => fails b) bs
      omega
    show ((persistLoop fails bs t).1,
        Except.ok (PersistSummary.mk (persistLoop fails bs t).2.1
          (persistLoop fails bs t).2.2)) = _
    rw [show (persistLoop fails bs t).2.1 = bs.length - 1 from hcounts.1.trans hlen,
      hcounts.2, h2]
  · intro b hb hf
    exact persistLoop_success_present b hb hf

/-- Witness for `persist_partial_failure`: a batch of three records of which
exactly the middle one fails. -/
theorem persist_partial_failure_witness :
    ∃ t', insert_book_data_into_postgres (fun b => b.title == "B") []
        [⟨"A", "a", "p", "r"⟩, ⟨"B", "b", "p", "r"⟩, ⟨"C", "c", "p", "r"⟩] =
        (t', Except.ok ⟨2, 1⟩) ∧
      ∀ b ∈ [⟨"A", "a", "p", "r"⟩, ⟨"B", "b", "p", "r"⟩,
          (⟨"C", "c", "p", "r"⟩ : BookRecord)], (b.title == "B") = false →
        hasTitle t' b.title = true :=
  persist_partial_failure (fun b => b.title == "B") []
    [⟨"A", "a", "p", "r"⟩, ⟨"B", "b", "p", "r"⟩, ⟨"C", "c", "p", "r"⟩]
    (by decide) (by decide)

/-- C2 counterexample: the claim says no pipeline run deletes a persisted
row, but `create_table_task` (which drops and recreates the table) is the
first task of every DAG run: a pre-existing row titled `"X"` is gone after
a run whose fetched records do not contain it. -/
theorem dagRun_deletes_row :
    hasTitle [⟨"X", "a", "p", "r"⟩] "X" = true ∧
    hasTitle (dagRun (fun _ => false) .networkError 1 [⟨"X", "a", "p", "r"⟩]) "X"
      = false := by
  constructor
  · rfl
  · decide

/-- C2 (amended): the fetch and persist steps themselves never delete a
row — every title present in the table when the persist step starts is
still present when it finishes, whether or not records fail — but each DAG
run begins with `create_table_task`, which drops and recreates the `book`
table, so rows from before the run survive only if re-upserted. -/
theorem persist_never_deletes (fails : BookRecord → Bool) (t : List Row)
    (bs : List BookRecord) (s : String) (h : hasTitle t s = true) :
    hasTitle (insert_book_data_into_postgres fails t bs).1 s = true := by
  unfold insert_book_data_into_postgres
  split
  · exact h
  · exact persistLoop_table_mono h

/-- Witness for `persist_never_deletes` on a concrete table and batch. -/
theorem persist_never_deletes_witness :
    hasTitle (insert_book_data_into_postgres (fun _ => false)
      [⟨"X", "a", "p", "r"⟩] [⟨"Y", "b", "q", "s"⟩]).1 "X" = true :=
  persist_never_deletes (fun _ => false) [⟨"X", "a", "p", "r"⟩]
    [⟨"Y", "b", "q", "s"⟩] "X" (by decide)

/-! ## Upsert algebra -/

theorem applyUpds_cons (b : BookRecord) (bs : List BookRecord) (r : Row) :
    applyUpds (b :: bs) r = applyUpds bs (updRow b r) :=
  rfl

theorem applyUpds_title (rs : List BookRecord) (r : Row) :
    (applyUpds rs r).title = r.title := by
  induction rs generalizing r with
  | nil => rfl
  | cons b bs ih =>
    rw [applyUpds_cons, ih, updRow_title]

theorem updRow_toRow_self (b : BookRecord) : updRow b (toRow b) = toRow b := by
  simp [updRow, toRow]

theorem updRow_of_ne {b : BookRecord} {r : Row} (h : r.title ≠ b.title) :
    updRow b r = r := by
  unfold updRow
  rw [if_neg h]

theorem lastMatch_cons (b : BookRecord) (bs : List BookRecord) (s : String) :
    lastMatch (b :: bs) s =
      (lastMatch bs s).or (if b.title == s then some b else none) := by
  unfold lastMatch
  rw [List.reverse_cons, List.find?_append, List.find?_singleton]

theorem applyUpds_eq_lastMatch (rs : List BookRecord) (r : Row) :
    applyUpds rs r =
      match lastMatch rs r.title with
      | some b => ⟨r.title, b.author, b.price, b.rating⟩
      | none => r := by
  induction rs generalizing r with
  | nil => rfl
  | cons b bs ih =>
    rw [applyUpds_cons, ih (updRow b r), updRow_title, lastMatch_cons]
    cases hm : lastMatch bs r.title with
    | some c => simp [Option.or]
    | none =>
      simp only [Option.or]
      by_cases hbt : b.title = r.title
      · rw [if_pos (by simpa using hbt)]
        unfold updRow
        rw [if_pos hbt.symm]
        simp [toRow, hbt]
      · rw [if_neg (by simpa using hbt)]
        rw [updRow_of_ne (fun he => hbt he.symm)]

theorem applyUpds_idem (rs : List BookRecord) (r : Row) :
    applyUpds rs (applyUpds rs r) = applyUpds rs r := by
  conv_lhs => rw [applyUpds_eq_lastMatch]
  rw [applyUpds_title]
  cases hm : lastMatch rs r.title with
  | some c =>
    rw [applyUpds_eq_lastMatch rs r, hm]
  | none => rfl

theorem hasTitle_iff_mem_titlesOf (t : List Row) (s : String) :
    hasTitle t s = true ↔ s ∈ titlesOf t := by
  simp only [hasTitle, titlesOf, List.any_eq_true, List.mem_map, beq_iff_eq]

theorem hasTitle_eq_false_iff (t : List Row) (s : String) :
    hasTitle t s = false ↔ ∀ r ∈ t, r.title ≠ s := by
  simp [hasTitle]

theorem titlesOf_map_updRow (t : List Row) (b : BookRecord) :
    titlesOf (t.map (updRow b)) = titlesOf t := by
  unfold titlesOf
  rw [List.map_map]
  exact List.map_congr_left (fun r _ => updRow_title b r)

theorem titlesOf_append_toRow (t : List Row) (b : BookRecord) :
    titlesOf (t ++ [toRow b]) = titlesOf t ++ [b.title] := by
  simp [titlesOf, toRow]

theorem dedupGo_cons (seen : List String) (b : BookRecord) (bs : List BookRecord) :
    dedupGo seen (b :: bs) =
      if b.title ∈ seen then dedupGo seen bs
      else b :: dedupGo (b.title :: seen) bs :=
  rfl

/-- Normal form of the table after upserting a record sequence: existing
rows updated in place (last matching record wins), new titles appended in
first-occurrence order. -/
theorem persistT_nf (rs : List BookRecord) : ∀ t : List Row,
    persistT rs t = t.map (applyUpds rs) ++
      (dedupGo (titlesOf t) rs).map (fun b => applyUpds rs (toRow b)) := by
  induction rs with
  | nil =>
    intro t
    show t = t.map (applyUpds []) ++ (dedupGo (titlesOf t) []).map _
    rw [show dedupGo (titlesOf t) ([] : List BookRecord) = [] from rfl]
    rw [List.map_nil, List.append_nil]
    exact (List.map_id'' (fun r => rfl) t).symm
  | cons b bs ih =>
    intro t
    show persistT bs (upsert t b) = _
    cases hb : hasTitle t b.title with
    | true =>
      have hmem : b.title ∈ titlesOf t := (hasTitle_iff_mem_titlesOf t b.title).mp hb
      rw [show upsert t b = t.map (updRow b) from by unfold upsert; rw [if_pos hb]]
      rw [ih (t.map (updRow b)), titlesOf_map_updRow]
      congr 1
      · rw [List.map_map]
        rfl
      · rw [dedupGo_cons, if_pos hmem]
        refine List.map_congr_left ?_
        intro c hc
        have hne : c.title ≠ b.title := fun he => dedupGo_not_seen hc (he ▸ hmem)
        show applyUpds bs (toRow c) = applyUpds bs (updRow b (toRow c))
        rw [updRow_of_ne hne]
    | false =>
      have hmem : b.title ∉ titlesOf t := by
        intro hm
        have h2 := (hasTitle_iff_mem_titlesOf t b.title).mpr hm
        simp [h2] at hb
      rw [show upsert t b = t ++ [toRow b] from by
        unfold upsert; rw [if_neg (by simp [hb])]]
      rw [ih (t ++ [toRow b]), titlesOf_append_toRow]
      rw [dedupGo_cons, if_neg hmem]
      have e1 : t.map (applyUpds (b :: bs)) = t.map (applyUpds bs) := by
        refine List.map_congr_left ?_
        intro r hr
        have hne : r.title ≠ b.title := (hasTitle_eq_false_iff t b.title).mp hb r hr
        rw [applyUpds_cons, updRow_of_ne hne]
      have e4 : (dedupGo (b.title :: titlesOf t) bs).map
            (fun c => applyUpds (b :: bs) (toRow c)) =
          (dedupGo (b.title :: titlesOf t) bs).map (fun c => applyUpds bs (toRow c)) := by
        refine List.map_congr_left ?_
        intro c hc
        have hne : c.title ≠ b.title := by
          have hns := dedupGo_not_seen hc
          intro he
          exact hns (he ▸ List.mem_cons_self _ _)
        show applyUpds (b :: bs) (toRow c) = applyUpds bs (toRow c)
        rw [applyUpds_cons, updRow_of_ne hne]
      have e3 : dedupGo (b.title :: titlesOf t) bs = dedupGo (titlesOf t ++ [b.title]) bs := by
        refine dedupGo_seen_equiv bs ?_
        intro x
        simp [or_comm]
      rw [List.map_cons, e1, List.map_append]
      rw [show applyUpds (b :: bs) (toRow b) = applyUpds bs (toRow b) from by
        rw [applyUpds_cons, updRow_toRow_self]]
      rw [e4, e3]
      simp [List.append_assoc]

theorem titlesOf_persistT (rs : List BookRecord) (t : List Row) :
    titlesOf (persistT rs t) = titlesOf t ++
      (dedupGo (titlesOf t) rs).map (fun b => b.title) := by
  rw [persistT_nf]
  unfold titlesOf
  rw [List.map_append, List.map_map, List.map_map]
  congr 1
  · exact List.map_congr_left (fun r _ => applyUpds_title rs r)
  · refine List.map_congr_left ?_
    intro c _
    show (applyUpds rs (toRow c)).title = c.title
    rw [applyUpds_title]
    rfl

theorem title_mem_persistT {rs : List BookRecord} {t : List Row} :
    ∀ b ∈ rs, b.title ∈ titlesOf (persistT rs t) := by
  intro b hb
  rw [titlesOf_persistT]
  rcases @dedupGo_titles_complete (titlesOf t) rs b hb with h | h
  · exact List.mem_append_left _ h
  · exact List.mem_append_right _ h

theorem applyUpds_fixed_of_mem (rs : List BookRecord) (t : List Row) :
    ∀ r ∈ persistT rs t, applyUpds rs r = r := by
  intro r hr
  rw [persistT_nf] at hr
  rcases List.mem_append.mp hr with h | h
  · obtain ⟨r0, _, rfl⟩ := List.mem_map.mp h
    exact applyUpds_idem rs r0
  · obtain ⟨c, _, rfl⟩ := List.mem_map.mp h
    exact applyUpds_idem rs (toRow c)

theorem persistT_twice (rs : List BookRecord) (t : List Row) :
    persistT rs (persistT rs t) = persistT rs t := by
  rw [persistT_nf rs (persistT rs t)]
  rw [dedupGo_nil_of_all_seen (fun b hb => title_mem_persistT b hb)]
  rw [List.map_nil, List.append_nil]
  rw [List.map_congr_left (fun r hr => applyUpds_fixed_of_mem rs t r hr)]
  exact List.map_id' _

/-! ## Claim theorem: C7 -/

/-- C7: upserting a record whose title already exists overwrites that row's
fields in place without adding a row (the table keeps its length and every
row carrying the title now equals the record's row), and upserting the same
record sequence twice in succession leaves the table exactly as upserting
it once. -/
theorem upsert_in_place_and_persist_idem (t : List Row) (b : BookRecord)
    (rs : List BookRecord) :
    (hasTitle t b.title = true →
      (upsert t b).length = t.length ∧
      ∀ r ∈ upsert t b, r.title = b.title → r = toRow b) ∧
    persistT rs (persistT rs t) = persistT rs t := by
  constructor
  · intro h
    constructor
    · unfold upsert
      rw [if_pos h]
      exact List.length_map t _
    · intro r hr hrt
      unfold upsert at hr
      rw [if_pos h] at hr
      obtain ⟨r0, hr0, rfl⟩ := List.mem_map.mp hr
      rw [updRow_title] at hrt
      unfold updRow
      rw [if_pos hrt]
  · exact persistT_twice rs t

/-- Witness for `upsert_in_place_and_persist_idem` on a one-row table and a
conflicting record. -/
theorem upsert_in_place_and_persist_idem_witness :
    (upsert [⟨"A", "x", "y", "z"⟩] ⟨"A", "b", "p", "r"⟩).length = 1 ∧
    persistT [⟨"A", "b", "p", "r"⟩]
        (persistT [⟨"A", "b", "p", "r"⟩] [⟨"A", "x", "y", "z"⟩]) =
      persistT [⟨"A", "b", "p", "r"⟩] [⟨"A", "x", "y", "z"⟩] :=
  ⟨((upsert_in_place_and_persist_idem [⟨"A", "x", "y", "z"⟩] ⟨"A", "b", "p", "r"⟩
      [⟨"A", "b", "p", "r"⟩]).1 (by decide)).1,
   (upsert_in_place_and_persist_idem [⟨"A", "x", "y", "z"⟩] ⟨"A", "b", "p", "r"⟩
      [⟨"A", "b", "p", "r"⟩]).2⟩

/-- Witness for `fetch_valid_response_bounded` at a concrete valid response
with an empty item list and `count = 1`. -/
theorem fetch_valid_response_bounded_witness :
    (fetch_books_from_google_api (.response 200 (.items [])) 1).length ≤ 1 ∧
    requestMaxResults 1 ≤ 40 ∧
    (⟨"Sample Book I", "Sample Author", "N/A", "N/A"⟩ : BookRecord).title.length ≤ 200 :=
  ⟨(fetch_valid_response_bounded [] 1).1,
   (fetch_valid_response_bounded [] 1).2.2.2,
   ((fetch_valid_response_bounded [] 1).2.1
      ⟨"Sample Book I", "Sample Author", "N/A", "N/A"⟩ (by decide)).1⟩
